import Mathlib

/-!
Shallow embedding of the distributed frame-rendering dispatcher of
blender-render-tool (`src/tools.py`): frame-range partitioning
(`slice_list`, `split_frames_per_host`), render-command construction
(`build_frames`, `build_output`, `build_blender`), the remote sync guard
(`get_file_mod_date`, `remote_blender`), and the dispatch driver
(`BlenderRender._run`), modelled as a pure trace of the external commands
it issues.  Frames are Python integers, modelled as `Int`; hosts and paths
are strings.
-/

namespace BlenderRenderTool

/-- One pass of the `for i in range(size)` loop of `slice_list`
(src/tools.py:309-323).  The first argument of the recursion is the list of
elements the Python iterator has not yet yielded; each pass appends
`sliceSize` elements to the current chunk (`for j in range(slice_size)`),
plus one further element while `remain` is non-zero (`if remain:`). -/
def sliceListLoop {α : Type} (sliceSize : Nat) : List α → Nat → Nat → List (List α)
  | _, _, 0 => []
  | it, remain, i + 1 =>
    if 0 < remain then
      (it.take sliceSize ++ (it.drop sliceSize).take 1)
        :: sliceListLoop sliceSize ((it.drop sliceSize).drop 1) (remain - 1) i
    else
      it.take sliceSize :: sliceListLoop sliceSize (it.drop sliceSize) remain i

/-- `slice_list(input, size)` from src/tools.py:309-323.  `slice_size =
input_size // size` and `remain = input_size % size` are computed before the
loop; Python raises `ZeroDivisionError` there when `size = 0`, modelled as
the error case of `Except`. -/
def sliceList {α : Type} (input : List α) (size : Nat) : Except String (List (List α)) :=
  if size = 0 then Except.error "ZeroDivisionError"
  else Except.ok (sliceListLoop (input.length / size) input (input.length % size) size)

theorem sliceListLoop_length {α : Type} (s : Nat) :
    ∀ (i : Nat) (it : List α) (r : Nat), (sliceListLoop s it r i).length = i := by
  intro i
  induction i with
  | zero => intro it r; rfl
  | succ i ih =>
    intro it r
    simp only [sliceListLoop]
    by_cases h : 0 < r
    · rw [if_pos h]; simp [ih]
    · rw [if_neg h]; simp [ih]

theorem sliceListLoop_join {α : Type} (s : Nat) :
    ∀ (i : Nat) (it : List α) (r : Nat),
      (sliceListLoop s it r i).join = it.take (i * s + min r i) := by
  intro i
  induction i with
  | zero => intro it r; simp [sliceListLoop]
  | succ i ih =>
    intro it r
    simp only [sliceListLoop]
    have hm : (i + 1) * s = i * s + s := Nat.succ_mul i s
    by_cases h : 0 < r
    · rw [if_pos h]
      simp only [List.join_cons, ih, List.drop_drop]
      rw [← List.take_add, ← List.take_add]
      congr 1
      omega
    · rw [if_neg h]
      have hr : r = 0 := by omega
      subst hr
      simp only [List.join_cons, ih]
      rw [← List.take_add]
      congr 1
      omega

theorem sliceListLoop_map_length {α : Type} (s : Nat) :
    ∀ (i : Nat) (it : List α) (r : Nat), i * s + min r i ≤ it.length →
      (sliceListLoop s it r i).map List.length
        = (List.range i).map (fun j => s + if j < r then 1 else 0) := by
  intro i
  induction i with
  | zero => intro it r _; rfl
  | succ i ih =>
    intro it r hlen
    have hm : (i + 1) * s = i * s + s := Nat.succ_mul i s
    simp only [sliceListLoop]
    rw [List.range_succ_eq_map]
    by_cases h : 0 < r
    · rw [if_pos h]
      have hbound : s + 1 ≤ it.length := by
        have : min r (i + 1) ≥ 1 := by omega
        omega
      have hhead : (it.take s ++ (it.drop s).take 1).length = s + 1 := by
        simp only [List.length_append, List.length_take, List.length_drop]
        omega
      have htail : (sliceListLoop s ((it.drop s).drop 1) (r - 1) i).map List.length
          = (List.range i).map (fun j => s + if j < r - 1 then 1 else 0) := by
        apply ih
        simp only [List.drop_drop, List.length_drop]
        have : min (r - 1) i ≤ min r (i + 1) - 1 := by omega
        omega
      simp only [List.map_cons, hhead, htail, List.map_map]
      rw [if_pos h]
      congr 1
      apply List.map_congr_left
      intro j _
      simp only [Function.comp_apply, Nat.succ_eq_add_one]
      by_cases hj : j + 1 < r
      · rw [if_pos hj, if_pos (show j < r - 1 by omega)]
      · rw [if_neg hj, if_neg (show ¬ j < r - 1 by omega)]
    · rw [if_neg h]
      have hr : r = 0 := by omega
      subst hr
      have hbound : s ≤ it.length := by omega
      have htail : (sliceListLoop s (it.drop s) 0 i).map List.length
          = (List.range i).map (fun j => s + if j < 0 then 1 else 0) := by
        apply ih
        simp only [List.length_drop]
        omega
      simp only [List.map_cons, List.length_take, htail, List.map_map]
      rw [Nat.min_eq_left hbound]
      simp [Function.comp_def, List.map_const']

/-- C1: Partition completeness — for every frame list and every host count
K ≥ 1, the K sub-sequences produced by `slice_list`, concatenated in host
order, equal the input list exactly (same elements, same relative order, no
duplicates, no omissions). -/
theorem slice_list_complete (l : List Int) (K : Nat) (hK : 1 ≤ K)
    (chunks : List (List Int)) (h : sliceList l K = Except.ok chunks) :
    chunks.join = l := by
  have hKne : ¬ K = 0 := by omega
  simp only [sliceList, if_neg hKne, Except.ok.injEq] at h
  subst h
  rw [sliceListLoop_join]
  have hmod : l.length % K < K := Nat.mod_lt _ (by omega)
  have hdm : K * (l.length / K) + l.length % K = l.length := Nat.div_add_mod _ _
  have h2 : K * (l.length / K) + min (l.length % K) K = l.length := by omega
  rw [h2, List.take_length]

/-- Witness for C1 at the concrete input l = [1, 2, 3], K = 2. -/
theorem slice_list_complete_witness :
    ([[1, 2], [3]] : List (List Int)).join = [1, 2, 3] :=
  slice_list_complete [1, 2, 3] 2 (by decide) [[1, 2], [3]] (by rfl)

/-- C2: Partition balance with front-loaded remainder — the i-th chunk
(0-based) produced by `slice_list` has length N / K + 1 when i < N % K and
length N / K otherwise; hence any two chunk sizes differ by at most 1. -/
theorem slice_list_balance (l : List Int) (K : Nat) (hK : 1 ≤ K)
    (chunks : List (List Int)) (h : sliceList l K = Except.ok chunks) :
    (∀ i, i < K → ∃ c, chunks.get? i = some c ∧
        c.length = l.length / K + (if i < l.length % K then 1 else 0)) ∧
    ∀ c₁ ∈ chunks, ∀ c₂ ∈ chunks, c₁.length ≤ c₂.length + 1 := by
  have hKne : ¬ K = 0 := by omega
  simp only [sliceList, if_neg hKne, Except.ok.injEq] at h
  subst h
  have hmod : l.length % K < K := Nat.mod_lt _ (by omega)
  have hdm : K * (l.length / K) + l.length % K = l.length := Nat.div_add_mod _ _
  have hlen : K * (l.length / K) + min (l.length % K) K ≤ l.length := by omega
  have hmap := sliceListLoop_map_length (l.length / K) K l (l.length % K) hlen
  constructor
  · intro i hi
    have h1 : ((sliceListLoop (l.length / K) l (l.length % K) K).map List.length).get? i
        = ((List.range K).map (fun j => l.length / K + if j < l.length % K then 1 else 0)).get? i := by
      rw [hmap]
    rw [List.get?_map, List.get?_map, List.get?_range hi] at h1
    rcases ho : (sliceListLoop (l.length / K) l (l.length % K) K).get? i with _ | c
    · rw [ho] at h1; simp at h1
    · rw [ho] at h1
      exact ⟨c, rfl, by simpa using h1⟩
  · intro c₁ hc₁ c₂ hc₂
    have m₁ : c₁.length ∈ (List.range K).map
        (fun j => l.length / K + if j < l.length % K then 1 else 0) := by
      rw [← hmap]; exact List.mem_map_of_mem _ hc₁
    have m₂ : c₂.length ∈ (List.range K).map
        (fun j => l.length / K + if j < l.length % K then 1 else 0) := by
      rw [← hmap]; exact List.mem_map_of_mem _ hc₂
    rcases List.mem_map.mp m₁ with ⟨j₁, _, hj₁⟩
    rcases List.mem_map.mp m₂ with ⟨j₂, _, hj₂⟩
    by_cases b₁ : j₁ < l.length % K <;> by_cases b₂ : j₂ < l.length % K <;>
      simp [b₁, b₂] at hj₁ hj₂ <;> omega

/-- Witness for C2 at l = [1, 2, 3, 4, 5, 6, 7], K = 3 (spec scenario:
7 = 3·2 + 1, so chunks of sizes 3, 2, 2). -/
theorem slice_list_balance_witness :
    (∀ i, i < 3 → ∃ c, ([[1, 2, 3], [4, 5], [6, 7]] : List (List Int)).get? i = some c ∧
        c.length = ([1, 2, 3, 4, 5, 6, 7] : List Int).length / 3 +
          (if i < ([1, 2, 3, 4, 5, 6, 7] : List Int).length % 3 then 1 else 0)) ∧
    ∀ c₁ ∈ ([[1, 2, 3], [4, 5], [6, 7]] : List (List Int)),
      ∀ c₂ ∈ ([[1, 2, 3], [4, 5], [6, 7]] : List (List Int)), c₁.length ≤ c₂.length + 1 :=
  slice_list_balance [1, 2, 3, 4, 5, 6, 7] 3 (by decide) [[1, 2, 3], [4, 5], [6, 7]] (by rfl)

/-- Insertion into a Python dict modelled as an insertion-ordered
association list: assigning to an existing key replaces its value in place,
a fresh key is appended at the end. -/
def pydictInsert {α β : Type} [DecidableEq α] : List (α × β) → α → β → List (α × β)
  | [], k, v => [(k, v)]
  | (k', v') :: rest, k, v =>
    if k' = k then (k, v) :: rest else (k', v') :: pydictInsert rest k v

/-- The Python dict comprehension `{k: v for k, v in pairs}`: keys are
inserted in order, later pairs overwriting earlier ones with the same key. -/
def pydictOfPairs {α β : Type} [DecidableEq α] (pairs : List (α × β)) : List (α × β) :=
  pairs.foldl (fun d kv => pydictInsert d kv.1 kv.2) []

/-- Python dict lookup `d[k]` on the association-list model (`none` models
a `KeyError`). -/
def pydictGet {α β : Type} [DecidableEq α] : List (α × β) → α → Option β
  | [], _ => none
  | (k', v') :: rest, k => if k' = k then some v' else pydictGet rest k

/-- `split_frames_per_host(frames, hosts)` from src/tools.py:325-328:
slice the frame list into `len(hosts)` chunks and build the dict
`{host: frames for host, frames in zip(hosts, frame_slices)}`. -/
def split_frames_per_host (frames : List Int) (hosts : List String) :
    Except String (List (String × List Int)) :=
  match sliceList frames hosts.length with
  | Except.error e => Except.error e
  | Except.ok frame_slices => Except.ok (pydictOfPairs (hosts.zip frame_slices))

theorem pydictInsert_fresh {α β : Type} [DecidableEq α] (k : α) (v : β) :
    ∀ (d : List (α × β)), k ∉ d.map Prod.fst → pydictInsert d k v = d ++ [(k, v)] := by
  intro d
  induction d with
  | nil => intro _; rfl
  | cons kv rest ih =>
    intro hk
    rcases kv with ⟨k', v'⟩
    simp only [List.map_cons, List.mem_cons] at hk
    push_neg at hk
    simp only [pydictInsert]
    rw [if_neg (by exact fun h => hk.1 h.symm), ih hk.2]
    rfl

theorem pydictOfPairs_nodup {α β : Type} [DecidableEq α] :
    ∀ (pairs acc : List (α × β)),
      (pairs.map Prod.fst).Nodup →
      (∀ k, k ∈ pairs.map Prod.fst → k ∉ acc.map Prod.fst) →
      pairs.foldl (fun d kv => pydictInsert d kv.1 kv.2) acc = acc ++ pairs := by
  intro pairs
  induction pairs with
  | nil => intro acc _ _; simp
  | cons kv rest ih =>
    intro acc hnd hdis
    rcases kv with ⟨k, v⟩
    simp only [List.map_cons, List.nodup_cons] at hnd
    simp only [List.foldl_cons]
    have hk : k ∉ acc.map Prod.fst := hdis k (by simp)
    rw [pydictInsert_fresh k v acc hk]
    rw [ih (acc ++ [(k, v)]) hnd.2 ?_]
    · simp
    · intro k' hk'
      simp only [List.map_append, List.mem_append, List.map_cons, List.map_nil,
        List.mem_singleton]
      push_neg
      refine ⟨fun h => hdis k' (by simp [hk']) h, ?_⟩
      intro h
      exact hnd.1 (h ▸ hk')

/-- C3 (amended): HostAssignment invariant — for every frame list and every
non-empty list of pairwise-distinct hosts, `split_frames_per_host` produces
a mapping whose keys are exactly the listed hosts in order (so every listed
host is present), and whose values, concatenated in host order, equal the
original frame list (disjoint, collectively exhaustive sub-sequences). -/
theorem split_frames_per_host_partition (frames : List Int) (hosts : List String)
    (hne : hosts ≠ []) (hnd : hosts.Nodup)
    (d : List (String × List Int)) (h : split_frames_per_host frames hosts = Except.ok d) :
    d.map Prod.fst = hosts ∧ (d.map Prod.snd).join = frames := by
  have hK : 1 ≤ hosts.length := by
    cases hosts with
    | nil => exact absurd rfl hne
    | cons a l => simp
  have hKne : ¬ hosts.length = 0 := by omega
  simp only [split_frames_per_host, sliceList, if_neg hKne] at h
  set slices := sliceListLoop (frames.length / hosts.length) frames
      (frames.length % hosts.length) hosts.length with hslices
  have hlen : slices.length = hosts.length := sliceListLoop_length _ _ _ _
  have hfst : (hosts.zip slices).map Prod.fst = hosts :=
    List.map_fst_zip hosts slices (by omega)
  have hsnd : (hosts.zip slices).map Prod.snd = slices :=
    List.map_snd_zip hosts slices (by omega)
  have hzip : pydictOfPairs (hosts.zip slices) = hosts.zip slices := by
    have := pydictOfPairs_nodup (hosts.zip slices) []
      (by rw [hfst]; exact hnd) (by intro k _; simp)
    simpa [pydictOfPairs] using this
  rw [hzip] at h
  cases h
  refine ⟨hfst, ?_⟩
  rw [hsnd, hslices, sliceListLoop_join]
  have hmod : frames.length % hosts.length < hosts.length := Nat.mod_lt _ (by omega)
  have hdm : hosts.length * (frames.length / hosts.length) + frames.length % hosts.length
      = frames.length := Nat.div_add_mod _ _
  have h2 : hosts.length * (frames.length / hosts.length)
      + min (frames.length % hosts.length) hosts.length = frames.length := by omega
  rw [h2, List.take_length]

/-- Witness for C3 at frames 1..10 and hosts ["localhost", "worker1"]
(the spec's scenario: localhost gets 1..5, worker1 gets 6..10). -/
theorem split_frames_per_host_partition_witness :
    ([("localhost", ([1, 2, 3, 4, 5] : List Int)), ("worker1", [6, 7, 8, 9, 10])].map
        Prod.fst = ["localhost", "worker1"]) ∧
    (([("localhost", ([1, 2, 3, 4, 5] : List Int)), ("worker1", [6, 7, 8, 9, 10])].map
        Prod.snd).join = [1, 2, 3, 4, 5, 6, 7, 8, 9, 10]) :=
  split_frames_per_host_partition [1, 2, 3, 4, 5, 6, 7, 8, 9, 10] ["localhost", "worker1"]
    (by decide) (by decide)
    [("localhost", [1, 2, 3, 4, 5]), ("worker1", [6, 7, 8, 9, 10])] (by rfl)

/-- Counterexample to C3 as stated: with the duplicated host list
["a", "a"] and frames [1, 2], the dict collapses to a single entry holding
only the second chunk, so the union of the mapping's sub-sequences is [2],
not the original frame range [1, 2]. -/
theorem split_frames_per_host_dup_cex :
    split_frames_per_host [1, 2] ["a", "a"] = Except.ok [("a", [2])] ∧
    (([("a", ([2] : List Int))].map Prod.snd).join ≠ [1, 2]) :=
  ⟨by rfl, by decide⟩

/-- `os.path.join(a, b)` for a single extra component, POSIX semantics:
an absolute second component (starting with the one-character separator
`'/'`) replaces the path; otherwise a separator is inserted unless the
first component is empty or already ends in the separator. -/
def os_path_join (a b : String) : String :=
  if b.data.head? = some '/' then b
  else if a = "" then a ++ b
  else if a.data.getLast? = some '/' then a ++ b
  else a ++ "/" ++ b

/-- `build_frames(frames)` from src/tools.py:251-257, modelled as the value
stored under the `frames` key: `'-f ' + ','.join(str(f) for f in frames)`
when a frame list is supplied, and the empty string when `frames is None`. -/
def build_frames (frames : Option (List Int)) : String :=
  match frames with
  | some fs => "-f " ++ String.intercalate "," (fs.map (fun f => toString f))
  | none => ""

/-- `build_output(path)` from src/tools.py:259-262, modelled as the value
stored under the `output` key: `'-o ' + os.path.join(path, '####.png')`
with the hard-coded 4-digit `.png` filename template. -/
def build_output (path : String) : String :=
  "-o " ++ os_path_join path "####.png"

/-- `build_blender(blend_file, output, frames)` from src/tools.py:265-270:
`'blender -b {blend_file} {output} {frames}'` with the two slots filled by
`build_output` and `build_frames`. -/
def build_blender (blend_file output : String) (frames : Option (List Int) := none) : String :=
  "blender -b " ++ blend_file ++ " " ++ build_output output ++ " " ++ build_frames frames

/-- C7: Invocation builder — the built command uses the hard-coded output
template `<output-dir>/####.png` (4-digit, `.png`); a supplied frame list
appears as a `-f` flag with comma-separated frame numbers, and `frames =
none` omits the flag entirely (its slot is the empty string). -/
theorem build_blender_command (blend_file output : String) (frames : Option (List Int))
    (hne : output ≠ "") (hsl : output.data.getLast? ≠ some '/') :
    build_blender blend_file output frames
      = "blender -b " ++ blend_file ++ " " ++ "-o " ++ (output ++ "/####.png") ++ " "
        ++ build_frames frames
    ∧ build_frames (none : Option (List Int)) = ""
    ∧ ∀ fs, build_frames (some fs) = "-f " ++ String.intercalate "," (fs.map toString) := by
  refine ⟨?_, rfl, fun fs => rfl⟩
  have hjoin : os_path_join output "####.png" = output ++ "/####.png" := by
    unfold os_path_join
    rw [if_neg (show ¬ ("####.png".data.head? = some '/') by decide)]
    rw [if_neg hne, if_neg hsl, String.append_assoc]
    rfl
  show "blender -b " ++ blend_file ++ " " ++ ("-o " ++ os_path_join output "####.png") ++ " "
      ++ build_frames frames = _
  rw [hjoin]
  simp only [String.append_assoc]

/-- Witness for C7 at blend_file "a.blend", output "out", frames [1, 2]. -/
theorem build_blender_command_witness :
    build_blender "a.blend" "out" (some [1, 2])
      = "blender -b " ++ "a.blend" ++ " " ++ "-o " ++ ("out" ++ "/####.png") ++ " "
        ++ build_frames (some [1, 2])
    ∧ build_frames (none : Option (List Int)) = ""
    ∧ ∀ fs, build_frames (some fs) = "-f " ++ String.intercalate "," (fs.map toString) :=
  build_blender_command "a.blend" "out" (some [1, 2]) (by decide) (by decide)

/-- C10: Empty-but-present frame list — `build_frames` on a supplied but
empty frame list emits the bare flag `"-f "` with no frame numbers after
it, which is distinct from the omitted-flag `none` case (empty string). -/
theorem build_frames_empty :
    build_frames (some ([] : List Int)) = "-f "
    ∧ build_frames (none : Option (List Int)) = ""
    ∧ build_frames (some ([] : List Int)) ≠ build_frames (none : Option (List Int)) :=
  ⟨rfl, rfl, by decide⟩

/-- Character class of a regex `\d` (a decimal digit). -/
def dig : Char → Bool := Char.isDigit

/-- A literal character of the regex. -/
def lit (c : Char) : Char → Bool := fun x => x = c

/-- The pattern `Modify: \d{4}-\d{2}-\d{2} \d{2}:\d{2}:\d{2}` of
`get_file_mod_date` (src/tools.py:289) as a list of character classes. -/
def modifyPattern : List (Char → Bool) :=
  [lit 'M', lit 'o', lit 'd', lit 'i', lit 'f', lit 'y', lit ':', lit ' ',
   dig, dig, dig, dig, lit '-', dig, dig, lit '-', dig, dig, lit ' ',
   dig, dig, lit ':', dig, dig, lit ':', dig, dig]

/-- Match a list of character classes against the front of a string,
returning the consumed characters on success. -/
def matchAt : List (Char → Bool) → List Char → Option (List Char)
  | [], _ => some []
  | _ :: _, [] => none
  | p :: ps, c :: cs => if p c then (matchAt ps cs).map (c :: ·) else none

/-- `regex.search` for the `^`-anchored `re.MULTILINE` pattern: scan the
string left to right, attempting the pattern at the string start and right
after every newline, returning the first match. -/
def regexSearch (s : List Char) (atStart : Bool) : Option (List Char) :=
  match s with
  | [] => none
  | c :: cs =>
    match (if atStart then matchAt modifyPattern (c :: cs) else none) with
    | some m => some m
    | none => regexSearch cs (c == '\n')

/-- `get_file_mod_date` from src/tools.py:287-297, parameterised by the
decoded stdout of the `stat` command it spawns: `regex.search(std_out)[0]`
returns the matched text; when the regex does not match, `search` returns
`None` and the `[0]` subscript raises (modelled as the `Except` error,
the spec's `ParseError`). -/
def get_file_mod_date (std_out : String) : Except String String :=
  match regexSearch std_out.data true with
  | some m => Except.ok (String.mk m)
  | none => Except.error "ParseError"

/-- Position `i` of `s` is a line start for the `^` anchor: the start of
the scan, or the position right after a newline. -/
def LineStartAt (s : List Char) (atStart : Bool) (i : Nat) : Prop :=
  (i = 0 ∧ atStart = true) ∨ (∃ j, i = j + 1 ∧ s.get? j = some '\n')

/-- The declarative reading of "the output contains a line matching the
expected `Modify: YYYY-MM-DD HH:MM:SS` timestamp shape": at some
line-start position, the next characters satisfy the pattern's character
classes pointwise. -/
def HasTimestampLine (out : String) : Prop :=
  ∃ i, LineStartAt out.data true i ∧
    ∃ m rest, out.data.drop i = m ++ rest ∧
      List.Forall₂ (fun p c => p c = true) modifyPattern m

theorem matchAt_isSome (ps : List (Char → Bool)) :
    ∀ t : List Char, (matchAt ps t).isSome ↔
      ∃ m rest, t = m ++ rest ∧ List.Forall₂ (fun p c => p c = true) ps m := by
  induction ps with
  | nil =>
    intro t
    simp only [matchAt, Option.isSome_some, true_iff]
    exact ⟨[], t, rfl, List.Forall₂.nil⟩
  | cons p ps ih =>
    intro t
    cases t with
    | nil =>
      simp only [matchAt, Option.isSome_none, Bool.false_eq_true, false_iff]
      rintro ⟨m, rest, htm, hf⟩
      cases hf with
      | cons _ _ => simp at htm
    | cons c cs =>
      simp only [matchAt]
      by_cases hpc : p c
      · rw [if_pos hpc]
        have hmap : (Option.map (fun x => c :: x) (matchAt ps cs)).isSome
            = (matchAt ps cs).isSome := by
          cases matchAt ps cs <;> rfl
        rw [hmap, ih cs]
        constructor
        · rintro ⟨m, rest, htm, hf⟩
          exact ⟨c :: m, rest, by simp [htm], List.Forall₂.cons hpc hf⟩
        · rintro ⟨m, rest, htm, hf⟩
          cases hf with
          | cons h1 h2 =>
            rename_i b bs
            simp only [List.cons_append, List.cons.injEq] at htm
            exact ⟨bs, rest, htm.2, h2⟩
      · rw [if_neg hpc]
        simp only [Option.isSome_none, Bool.false_eq_true, false_iff]
        rintro ⟨m, rest, htm, hf⟩
        cases hf with
        | cons h1 h2 =>
          rename_i b bs
          simp only [List.cons_append, List.cons.injEq] at htm
          exact hpc (by rw [htm.1]; exact h1)

theorem regexSearch_isSome :
    ∀ (s : List Char) (atStart : Bool), (regexSearch s atStart).isSome ↔
      ∃ i, LineStartAt s atStart i ∧ (matchAt modifyPattern (s.drop i)).isSome := by
  intro s
  induction s with
  | nil =>
    intro atStart
    simp only [regexSearch, Option.isSome_none, Bool.false_eq_true, false_iff]
    rintro ⟨i, _, hm⟩
    simp only [List.drop_nil] at hm
    have hnone : matchAt modifyPattern ([] : List Char) = none := rfl
    rw [hnone] at hm
    simp at hm
  | cons c cs ih =>
    intro atStart
    simp only [regexSearch]
    rcases hfirst : (if atStart = true then matchAt modifyPattern (c :: cs) else none)
      with _ | m
    · constructor
      · intro h
        have h' : (regexSearch cs (c == '\n')).isSome = true := h
        rcases (ih (c == '\n')).mp h' with ⟨j, hls, hm⟩
        refine ⟨j + 1, ?_, by simpa using hm⟩
        right
        refine ⟨j, rfl, ?_⟩
        rcases hls with ⟨h0, hb⟩ | ⟨j', hj', hjnl⟩
        · subst h0
          simp only [List.get?_cons_zero, Option.some.injEq]
          exact beq_iff_eq.mp hb
        · subst hj'
          simpa using hjnl
      · rintro ⟨i, hls, hm⟩
        show (regexSearch cs (c == '\n')).isSome = true
        apply (ih (c == '\n')).mpr
        rcases i with _ | j
        · rcases hls with ⟨_, hb⟩ | ⟨j', hj', _⟩
          · rw [if_pos hb] at hfirst
            simp only [List.drop_zero] at hm
            rw [hfirst] at hm
            simp at hm
          · simp at hj'
        · refine ⟨j, ?_, by simpa using hm⟩
          rcases hls with ⟨h0, _⟩ | ⟨j', hj', hjnl⟩
          · simp at h0
          · have hq : j' = j := by omega
            rw [hq] at hjnl
            rcases j with _ | k
            · left
              refine ⟨rfl, ?_⟩
              simp only [List.get?_cons_zero, Option.some.injEq] at hjnl
              simp [hjnl]
            · right
              refine ⟨k, rfl, ?_⟩
              simpa using hjnl
    · constructor
      · intro _
        have hstart : atStart = true := by
          by_contra hA
          rw [if_neg hA] at hfirst
          exact Option.noConfusion hfirst
        rw [if_pos hstart] at hfirst
        refine ⟨0, Or.inl ⟨rfl, hstart⟩, ?_⟩
        simp only [List.drop_zero, hfirst, Option.isSome_some]
      · intro _
        rfl

/-- C5: Timestamp parse failure — `get_file_mod_date` fails with the
ParseError (raises rather than returning a value) exactly when the command
output has no line matching the `Modify: YYYY-MM-DD HH:MM:SS` shape. -/
theorem get_file_mod_date_parse_error (std_out : String) :
    get_file_mod_date std_out = Except.error "ParseError" ↔ ¬ HasTimestampLine std_out := by
  unfold get_file_mod_date
  have hsearch := regexSearch_isSome std_out.data true
  have hshape : HasTimestampLine std_out ↔
      ∃ i, LineStartAt std_out.data true i ∧
        (matchAt modifyPattern (std_out.data.drop i)).isSome := by
    unfold HasTimestampLine
    constructor
    · rintro ⟨i, hls, hm⟩
      exact ⟨i, hls, (matchAt_isSome _ _).mpr hm⟩
    · rintro ⟨i, hls, hm⟩
      exact ⟨i, hls, (matchAt_isSome _ _).mp hm⟩
  rcases hs : regexSearch std_out.data true with _ | m
  · refine ⟨fun _ hHas => ?_, fun _ => rfl⟩
    rw [hshape] at hHas
    have hsome := hsearch.mpr hHas
    rw [hs] at hsome
    simp at hsome
  · constructor
    · intro h
      simp at h
    · intro hnot
      have hsome : (regexSearch std_out.data true).isSome := by rw [hs]; rfl
      exact absurd (hshape.mpr (hsearch.mp hsome)) hnot

/-- One externally observable action of the dispatcher: spawning the local
render process (`blender`, src/tools.py:272-274), spawning a remote one
(`remote_blender`, src/tools.py:299-307), the `scp` push of the blend file
(`copy_to_host`, src/tools.py:276-277), a `p.wait()` on the render process
spawned for a host, the `scp -r` retrieval (`copy_results_from_host`,
src/tools.py:279-280) and the remote `rm -r` (`cleanup_host`,
src/tools.py:282-284). -/
inductive Event : Type where
  | launch_local (cmd : String)
  | launch_remote (host cmd : String)
  | copy_to_host (blend_file host : String)
  | wait (host : String)
  | copy_results (host output : String)
  | cleanup (host output : String)
deriving DecidableEq, Repr

/-- An environment assigning to each (file, host) pair the timestamp string
the sync guard's `get_file_mod_date(file, host)` query returns; the local
query is the entry at host "localhost" (the parameter's default). -/
def TsEnv : Type := String → String → String

/-- The commands issued by `remote_blender(host, ...)` (src/tools.py:299-307)
for a successfully parsed pair of timestamp queries: `copy_to_host` runs iff
the remote and local timestamp strings differ, then the remote-shell-wrapped
render command is spawned. -/
def remote_blender_events (env : TsEnv) (host blend_file output : String)
    (frames : Option (List Int)) : List Event :=
  (if env blend_file host ≠ env blend_file "localhost"
    then [Event.copy_to_host blend_file host] else [])
  ++ [Event.launch_remote host (build_blender blend_file output frames)]

/-- The launch performed for one host of the `for host in args.distribute`
loop of `BlenderRender._run` (src/tools.py:365-376): a direct local
invocation for the "localhost" sentinel, otherwise a remote one. -/
def hostLaunchEvents (env : TsEnv) (blend_file output : String)
    (host : String) (fs : List Int) : List Event :=
  if host = "localhost"
    then [Event.launch_local (build_blender blend_file output (some fs))]
    else remote_blender_events env host blend_file output (some fs)

/-- The launch loop of `BlenderRender._run`: `_frames =
frames_per_host[host]` (a `KeyError` on a missing key is the error case),
then one process is spawned per host. -/
def launchLoop (env : TsEnv) (blend_file output : String)
    (fph : List (String × List Int)) : List String → Except String (List Event)
  | [] => Except.ok []
  | host :: rest =>
    match pydictGet fph host with
    | none => Except.error "KeyError"
    | some fs =>
      match launchLoop env blend_file output fph rest with
      | Except.error e => Except.error e
      | Except.ok evs => Except.ok (hostLaunchEvents env blend_file output host fs ++ evs)

/-- Python's `range(start, stop, step)` as a list of ints: `ValueError` on a
zero step, otherwise elements `start + step * i` counted up (or down) until
`stop` is passed. -/
def pyRange (start stop step : Int) : Except String (List Int) :=
  if step = 0 then Except.error "ValueError"
  else
    Except.ok ((List.range
      (if 0 < step then ((stop - start + step - 1) / step).toNat
       else ((start - stop + (-step) - 1) / (-step)).toNat)).map
      (fun i => start + step * (i : Int)))

/-- The CLI arguments of the `render` tool consumed by `BlenderRender._run`
(src/tools.py:333-352). -/
structure Args : Type where
  blend_file : String
  output : String
  num_frames : Int
  start_frame : Int
  end_frame : Option Int
  distribute : List String
  jump : Int

/-- The `end_frame` computation of `BlenderRender._run`
(src/tools.py:356-359): `if args.end_frame:` is Python truthiness, so both
`None` and `0` fall back to `num_frames`; otherwise
`min(args.num_frames, args.end_frame)`. -/
def dispatchEnd (args : Args) : Int :=
  match args.end_frame with
  | some e => if e ≠ 0 then min args.num_frames e else args.num_frames
  | none => args.num_frames

/-- The frame list of `BlenderRender._run`:
`range(args.start_frame, end_frame + 1, args.jump)`. -/
def dispatchFrames (args : Args) : Except String (List Int) :=
  pyRange args.start_frame (dispatchEnd args + 1) args.jump

/-- The post-render phase of `BlenderRender._run` (src/tools.py:379-382):
for every host of the distribute list other than the "localhost" sentinel,
in list order, first the recursive result copy and then the remote delete
of the output directory, both unconditionally. -/
def postEvents (args : Args) : List Event :=
  ((args.distribute.filter (fun host => host ≠ "localhost")).map
    (fun host => [Event.copy_results host args.output,
                  Event.cleanup host args.output])).join

/-- The full trace of external commands issued by `BlenderRender._run`
(src/tools.py:354-382): split the frames over the hosts, spawn one render
process per host (local or remote, with the remote sync guard), wait on
every process handle in spawn order, then, for every non-local host, copy
its results back and delete its remote output directory. -/
def dispatch (env : TsEnv) (args : Args) : Except String (List Event) :=
  match dispatchFrames args with
  | Except.error e => Except.error e
  | Except.ok frames =>
    match split_frames_per_host frames args.distribute with
    | Except.error e => Except.error e
    | Except.ok frames_per_host =>
      match launchLoop env args.blend_file args.output frames_per_host args.distribute with
      | Except.error e => Except.error e
      | Except.ok launches =>
        Except.ok (launches ++ args.distribute.map Event.wait ++ postEvents args)

/-- An event that spawns a render process. -/
def isLaunch : Event → Bool
  | Event.launch_local _ => true
  | Event.launch_remote _ _ => true
  | _ => false

/-- An event that blocks on a render process handle. -/
def isWait : Event → Bool
  | Event.wait _ => true
  | _ => false

/-- A retrieval or cleanup event of the post-render phase. -/
def isPost : Event → Bool
  | Event.copy_results _ _ => true
  | Event.cleanup _ _ => true
  | _ => false

theorem pydictGet_insert_self {α β : Type} [DecidableEq α] (k : α) (v : β) :
    ∀ d : List (α × β), pydictGet (pydictInsert d k v) k = some v := by
  intro d
  induction d with
  | nil => simp [pydictInsert, pydictGet]
  | cons kv rest ih =>
    rcases kv with ⟨k', v'⟩
    simp only [pydictInsert]
    by_cases hk : k' = k
    · rw [if_pos hk]
      simp [pydictGet]
    · rw [if_neg hk]
      simp only [pydictGet, if_neg hk]
      exact ih

theorem pydictGet_insert_isSome {α β : Type} [DecidableEq α] (k k' : α) (v : β) :
    ∀ d : List (α × β), (pydictGet d k').isSome →
      (pydictGet (pydictInsert d k v) k').isSome := by
  intro d
  induction d with
  | nil => simp [pydictGet]
  | cons kv rest ih =>
    rcases kv with ⟨k0, v0⟩
    intro hd
    simp only [pydictInsert]
    by_cases h0 : k0 = k
    · rw [if_pos h0]
      simp only [pydictGet] at hd ⊢
      by_cases h' : k = k'
      · rw [if_pos h']; rfl
      · rw [if_neg h']
        rw [h0] at hd
        rw [if_neg h'] at hd
        exact hd
    · rw [if_neg h0]
      simp only [pydictGet] at hd ⊢
      by_cases h' : k0 = k'
      · rw [if_pos h'] at hd ⊢; exact hd
      · rw [if_neg h'] at hd ⊢; exact ih hd

theorem pydictGet_build_isSome {α β : Type} [DecidableEq α] :
    ∀ (pairs acc : List (α × β)) (k : α),
      (k ∈ pairs.map Prod.fst ∨ (pydictGet acc k).isSome) →
      (pydictGet (pairs.foldl (fun d kv => pydictInsert d kv.1 kv.2) acc) k).isSome := by
  intro pairs
  induction pairs with
  | nil =>
    intro acc k h
    rcases h with h | h
    · simp at h
    · simpa using h
  | cons kv rest ih =>
    intro acc k h
    rcases kv with ⟨k0, v0⟩
    simp only [List.foldl_cons]
    apply ih
    rcases h with h | h
    · simp only [List.map_cons, List.mem_cons] at h
      rcases h with h | h
      · right
        rw [h]
        rw [pydictGet_insert_self]
        rfl
      · left; exact h
    · right
      exact pydictGet_insert_isSome k0 k v0 acc h

theorem launchLoop_ok (env : TsEnv) (bf out : String) (fph : List (String × List Int)) :
    ∀ hosts : List String, (∀ h ∈ hosts, (pydictGet fph h).isSome) →
      launchLoop env bf out fph hosts
        = Except.ok ((hosts.map (fun h =>
            hostLaunchEvents env bf out h ((pydictGet fph h).getD []))).join) := by
  intro hosts
  induction hosts with
  | nil => intro _; rfl
  | cons h0 rest ih =>
    intro hall
    have hs : (pydictGet fph h0).isSome := hall h0 (by simp)
    rcases hfs : pydictGet fph h0 with _ | fs
    · rw [hfs] at hs; simp at hs
    · simp only [launchLoop, hfs]
      rw [ih (fun h hm => hall h (by simp [hm]))]
      simp [hfs]

theorem hostLaunchEvents_filter_isLaunch (env : TsEnv) (bf out h : String) (fs : List Int) :
    (hostLaunchEvents env bf out h fs).filter isLaunch
      = [if h = "localhost"
          then Event.launch_local (build_blender bf out (some fs))
          else Event.launch_remote h (build_blender bf out (some fs))] := by
  unfold hostLaunchEvents remote_blender_events
  by_cases hl : h = "localhost"
  · rw [if_pos hl, if_pos hl]; rfl
  · rw [if_neg hl, if_neg hl]
    by_cases hc : env bf h ≠ env bf "localhost"
    · rw [if_pos hc]; rfl
    · rw [if_neg hc]; rfl

theorem hostLaunchEvents_no_wait_post (env : TsEnv) (bf out h : String) (fs : List Int) :
    ∀ e ∈ hostLaunchEvents env bf out h fs, isWait e = false ∧ isPost e = false := by
  intro e he
  unfold hostLaunchEvents remote_blender_events at he
  by_cases hl : h = "localhost"
  · rw [if_pos hl] at he
    simp only [List.mem_singleton] at he
    subst he
    exact ⟨rfl, rfl⟩
  · rw [if_neg hl] at he
    rcases List.mem_append.mp he with h1 | h1
    · split_ifs at h1
      · simp only [List.mem_singleton] at h1
        subst h1
        exact ⟨rfl, rfl⟩
      · simp at h1
    · simp only [List.mem_singleton] at h1
      subst h1
      exact ⟨rfl, rfl⟩

theorem postEvents_no_launch_wait (args : Args) :
    ∀ e ∈ postEvents args, isLaunch e = false ∧ isWait e = false := by
  intro e he
  unfold postEvents at he
  rcases List.mem_join.mp he with ⟨blk, hblk, heb⟩
  rcases List.mem_map.mp hblk with ⟨h0, _, hb⟩
  subst hb
  rcases List.mem_cons.mp heb with h1 | h1
  · subst h1; exact ⟨rfl, rfl⟩
  · simp only [List.mem_singleton] at h1
    subst h1
    exact ⟨rfl, rfl⟩

theorem waitEvents_no_launch_post (hosts : List String) :
    ∀ e ∈ hosts.map Event.wait, isLaunch e = false ∧ isPost e = false := by
  intro e he
  rcases List.mem_map.mp he with ⟨h0, _, hb⟩
  subst hb
  exact ⟨rfl, rfl⟩

theorem filter_join (p : Event → Bool) :
    ∀ L : List (List Event), (L.join).filter p = (L.map (List.filter p)).join := by
  intro L
  induction L with
  | nil => rfl
  | cons b rest ih => simp [List.filter_append, ih]

theorem join_map_singleton {α : Type} (f : α → Event) :
    ∀ l : List α, ((l.map (fun x => [f x])).join) = l.map f := by
  intro l
  induction l with
  | nil => rfl
  | cons x rest ih => simp [ih]

theorem dispatch_ok_elim (env : TsEnv) (args : Args) (tr : List Event)
    (h : dispatch env args = Except.ok tr) :
    ∃ frames fph launches,
      dispatchFrames args = Except.ok frames ∧
      split_frames_per_host frames args.distribute = Except.ok fph ∧
      launchLoop env args.blend_file args.output fph args.distribute = Except.ok launches ∧
      tr = launches ++ args.distribute.map Event.wait ++ postEvents args := by
  unfold dispatch at h
  split at h
  next e heq => exact absurd h (by simp)
  next frames heq =>
    split at h
    next e heq2 => exact absurd h (by simp)
    next fph heq2 =>
      split at h
      next e heq3 => exact absurd h (by simp)
      next launches heq3 =>
        simp only [Except.ok.injEq] at h
        exact ⟨frames, fph, launches, heq, heq2, heq3, h.symm⟩

theorem split_frames_per_host_keys (frames : List Int) (hosts : List String)
    (fph : List (String × List Int))
    (h : split_frames_per_host frames hosts = Except.ok fph) :
    hosts ≠ [] ∧ ∀ h0 ∈ hosts, (pydictGet fph h0).isSome := by
  have hne : hosts ≠ [] := by
    intro hempty
    subst hempty
    simp [split_frames_per_host, sliceList] at h
  have hK : ¬ hosts.length = 0 := by
    cases hosts with
    | nil => exact absurd rfl hne
    | cons a l => simp
  refine ⟨hne, ?_⟩
  simp only [split_frames_per_host, sliceList, if_neg hK, Except.ok.injEq] at h
  intro h0 hm
  rw [← h]
  apply pydictGet_build_isSome
  left
  have hlen : (sliceListLoop (frames.length / hosts.length) frames
      (frames.length % hosts.length) hosts.length).length = hosts.length :=
    sliceListLoop_length _ _ _ _
  rw [List.map_fst_zip hosts _ (by omega)]
  exact hm

theorem index_mono_of_decomp (tr L R : List Event) (hdec : tr = L ++ R)
    (p q : Event → Bool)
    (hpR : ∀ e ∈ R, p e = false) (hqL : ∀ e ∈ L, q e = false) :
    ∀ i j (hi : i < tr.length) (hj : j < tr.length),
      p (tr.get ⟨i, hi⟩) = true → q (tr.get ⟨j, hj⟩) = true → i < j := by
  subst hdec
  intro i j hi hj hpi hqj
  rw [List.get_eq_getElem] at hpi hqj
  have hiL : i < L.length := by
    by_contra hge
    push_neg at hge
    have hmem : (L ++ R)[i] ∈ R := by
      rw [List.getElem_append_right hge]
      exact List.getElem_mem _
    rw [hpR _ hmem] at hpi
    exact absurd hpi (by simp)
  have hjL : L.length ≤ j := by
    by_contra hlt
    push_neg at hlt
    have hmem : (L ++ R)[j] ∈ L := by
      rw [List.getElem_append_left hlt]
      exact List.getElem_mem _
    rw [hqL _ hmem] at hqj
    exact absurd hqj (by simp)
  omega

theorem launches_shape (env : TsEnv) (args : Args) (tr : List Event)
    (hok : dispatch env args = Except.ok tr) :
    ∃ fph,
      tr = ((args.distribute.map (fun h => hostLaunchEvents env args.blend_file args.output h
              ((pydictGet fph h).getD []))).join)
        ++ args.distribute.map Event.wait ++ postEvents args := by
  rcases dispatch_ok_elim env args tr hok with ⟨frames, fph, launches, _, hs, hl, htr⟩
  rcases split_frames_per_host_keys frames args.distribute fph hs with ⟨_, hkeys⟩
  rw [launchLoop_ok env args.blend_file args.output fph args.distribute hkeys] at hl
  simp only [Except.ok.injEq] at hl
  exact ⟨fph, by rw [htr, hl]⟩

/-- C8: Launcher ordering — in every successful dispatch, exactly one render
process is launched per host in the distribute list (including hosts with an
empty frame allocation): the k-th launched process is a direct local
invocation when the k-th host is the "localhost" sentinel and a
remote-shell-wrapped invocation of that host otherwise; every launch occurs
before any wait on a render process handle, and the waits proceed
sequentially over all handles in launch order. -/
theorem dispatch_launch_ordering (env : TsEnv) (args : Args) (tr : List Event)
    (hok : dispatch env args = Except.ok tr) :
    (tr.filter isLaunch).length = args.distribute.length ∧
    (∀ k h0, args.distribute.get? k = some h0 →
        ∃ c, (tr.filter isLaunch).get? k
          = some (if h0 = "localhost" then Event.launch_local c
                  else Event.launch_remote h0 c)) ∧
    tr.filter isWait = args.distribute.map Event.wait ∧
    (∀ i j (hi : i < tr.length) (hj : j < tr.length),
        isLaunch (tr.get ⟨i, hi⟩) = true → isWait (tr.get ⟨j, hj⟩) = true → i < j) := by
  rcases launches_shape env args tr hok with ⟨fph, htr⟩
  set bf := args.blend_file
  set out := args.output
  set hosts := args.distribute
  set blockOf : String → List Event :=
    fun h => hostLaunchEvents env bf out h ((pydictGet fph h).getD []) with hblockOf
  set L : List Event := (hosts.map blockOf).join with hL
  set W : List Event := hosts.map Event.wait with hW
  set P : List Event := postEvents args with hP
  set launchOf : String → Event := fun h =>
    if h = "localhost"
      then Event.launch_local (build_blender bf out (some ((pydictGet fph h).getD [])))
      else Event.launch_remote h (build_blender bf out (some ((pydictGet fph h).getD [])))
    with hlaunchOf
  have hLnoWait : ∀ e ∈ L, isWait e = false := by
    intro e he
    rcases List.mem_join.mp he with ⟨blk, hblk, heb⟩
    rcases List.mem_map.mp hblk with ⟨h0, _, hb⟩
    subst hb
    exact (hostLaunchEvents_no_wait_post env bf out h0 _ e heb).1
  have hWnoLaunch : ∀ e ∈ W, isLaunch e = false :=
    fun e he => (waitEvents_no_launch_post hosts e he).1
  have hPnoLaunch : ∀ e ∈ P, isLaunch e = false :=
    fun e he => (postEvents_no_launch_wait args e he).1
  have hPnoWait : ∀ e ∈ P, isWait e = false :=
    fun e he => (postEvents_no_launch_wait args e he).2
  have hLfilter : L.filter isLaunch = hosts.map launchOf := by
    rw [hL, filter_join, List.map_map]
    have hfun : (List.filter isLaunch ∘ blockOf) = fun h => [launchOf h] := by
      funext h
      simp only [Function.comp_apply, hblockOf]
      rw [hostLaunchEvents_filter_isLaunch]
    rw [hfun, join_map_singleton]
  have hWfilterLaunch : W.filter isLaunch = [] :=
    List.filter_eq_nil.mpr (fun e he => by rw [hWnoLaunch e he]; simp)
  have hPfilterLaunch : P.filter isLaunch = [] :=
    List.filter_eq_nil.mpr (fun e he => by rw [hPnoLaunch e he]; simp)
  have htrFilterLaunch : tr.filter isLaunch = hosts.map launchOf := by
    rw [htr, List.filter_append, List.filter_append, hLfilter, hWfilterLaunch,
      hPfilterLaunch, List.append_nil, List.append_nil]
  refine ⟨?_, ?_, ?_, ?_⟩
  · rw [htrFilterLaunch, List.length_map]
  · intro k h0 hk
    refine ⟨build_blender bf out (some ((pydictGet fph h0).getD [])), ?_⟩
    rw [htrFilterLaunch, List.get?_map, hk]
    rfl
  · have hLfilterWait : L.filter isWait = [] :=
      List.filter_eq_nil.mpr (fun e he => by rw [hLnoWait e he]; simp)
    have hPfilterWait : P.filter isWait = [] :=
      List.filter_eq_nil.mpr (fun e he => by rw [hPnoWait e he]; simp)
    have hWfilterWait : W.filter isWait = W :=
      List.filter_eq_self.mpr (fun e he => by
        rcases List.mem_map.mp he with ⟨h0, _, hb⟩
        subst hb
        rfl)
    rw [htr, List.filter_append, List.filter_append, hLfilterWait, hPfilterWait,
      hWfilterWait, List.append_nil, List.nil_append]
  · apply index_mono_of_decomp tr L (W ++ P)
      (by rw [htr, List.append_assoc])
    · intro e he
      rcases List.mem_append.mp he with h1 | h1
      · exact hWnoLaunch e h1
      · exact hPnoLaunch e h1
    · exact hLnoWait

/-- C9: Retrieval-then-cleanup — in every successful dispatch, for every
non-local host the recursive result copy is immediately followed by the
unconditional remote delete of that host's output directory (the delete is
not gated on the retrieval having succeeded: it is always present in the
issued-command trace); no retrieval or cleanup command is ever issued for
the "localhost" sentinel, and all of them are issued only after every wait
on a render process handle. -/
theorem dispatch_retrieval_cleanup (env : TsEnv) (args : Args) (tr : List Event)
    (hok : dispatch env args = Except.ok tr) :
    (∀ h0 ∈ args.distribute, h0 ≠ "localhost" →
        List.IsInfix [Event.copy_results h0 args.output, Event.cleanup h0 args.output] tr) ∧
    (∀ c, Event.copy_results "localhost" c ∉ tr) ∧
    (∀ c, Event.cleanup "localhost" c ∉ tr) ∧
    (∀ i j (hi : i < tr.length) (hj : j < tr.length),
        isWait (tr.get ⟨i, hi⟩) = true → isPost (tr.get ⟨j, hj⟩) = true → i < j) := by
  rcases launches_shape env args tr hok with ⟨fph, htr⟩
  set bf := args.blend_file
  set out := args.output
  set hosts := args.distribute
  set blockOf : String → List Event :=
    fun h => hostLaunchEvents env bf out h ((pydictGet fph h).getD []) with hblockOf
  set L : List Event := (hosts.map blockOf).join with hL
  set W : List Event := hosts.map Event.wait with hW
  set P : List Event := postEvents args with hP
  have hLnoPost : ∀ e ∈ L, isPost e = false := by
    intro e he
    rcases List.mem_join.mp he with ⟨blk, hblk, heb⟩
    rcases List.mem_map.mp hblk with ⟨h0, _, hb⟩
    subst hb
    exact (hostLaunchEvents_no_wait_post env bf out h0 _ e heb).2
  have hLnoWait : ∀ e ∈ L, isWait e = false := by
    intro e he
    rcases List.mem_join.mp he with ⟨blk, hblk, heb⟩
    rcases List.mem_map.mp hblk with ⟨h0, _, hb⟩
    subst hb
    exact (hostLaunchEvents_no_wait_post env bf out h0 _ e heb).1
  have hWnoPost : ∀ e ∈ W, isPost e = false :=
    fun e he => (waitEvents_no_launch_post hosts e he).2
  have hPnoWait : ∀ e ∈ P, isWait e = false :=
    fun e he => (postEvents_no_launch_wait args e he).2
  have hPshape : ∀ e ∈ P, ∃ h0, h0 ≠ "localhost" ∧
      (e = Event.copy_results h0 out ∨ e = Event.cleanup h0 out) := by
    intro e he
    rw [hP] at he
    unfold postEvents at he
    rcases List.mem_join.mp he with ⟨blk, hblk, heb⟩
    rcases List.mem_map.mp hblk with ⟨h0, hh0, hb⟩
    subst hb
    have hne : h0 ≠ "localhost" := by
      have := (List.mem_filter.mp hh0).2
      simpa using this
    rcases List.mem_cons.mp heb with h1 | h1
    · exact ⟨h0, hne, Or.inl h1⟩
    · simp only [List.mem_singleton] at h1
      exact ⟨h0, hne, Or.inr h1⟩
  refine ⟨?_, ?_, ?_, ?_⟩
  · intro h0 hm hne
    have hf : h0 ∈ hosts.filter (fun host => host ≠ "localhost") :=
      List.mem_filter.mpr ⟨hm, by simpa using hne⟩
    have hblk : [Event.copy_results h0 out, Event.cleanup h0 out]
        ∈ (hosts.filter (fun host => host ≠ "localhost")).map
          (fun host => [Event.copy_results host out, Event.cleanup host out]) :=
      List.mem_map_of_mem _ hf
    have hinfP : List.IsInfix [Event.copy_results h0 out, Event.cleanup h0 out] P :=
      List.infix_of_mem_join hblk
    have hsuf : P.IsSuffix tr := by
      rw [htr]
      exact List.suffix_append (L ++ W) P
    exact hinfP.trans hsuf.isInfix
  · intro c hmem
    rw [htr] at hmem
    rcases List.mem_append.mp hmem with h1 | h1
    · rcases List.mem_append.mp h1 with h2 | h2
      · have := hLnoPost _ h2
        simp [isPost] at this
      · have := hWnoPost _ h2
        simp [isPost] at this
    · rcases hPshape _ h1 with ⟨h0, hne, hcase | hcase⟩
      · have : h0 = "localhost" := by
          cases hcase
          rfl
        exact hne this
      · cases hcase
  · intro c hmem
    rw [htr] at hmem
    rcases List.mem_append.mp hmem with h1 | h1
    · rcases List.mem_append.mp h1 with h2 | h2
      · have := hLnoPost _ h2
        simp [isPost] at this
      · have := hWnoPost _ h2
        simp [isPost] at this
    · rcases hPshape _ h1 with ⟨h0, hne, hcase | hcase⟩
      · cases hcase
      · have : h0 = "localhost" := by
          cases hcase
          rfl
        exact hne this
  · apply index_mono_of_decomp tr (L ++ W) P htr
    · exact hPnoWait
    · intro e he
      rcases List.mem_append.mp he with h1 | h1
      · exact hLnoPost e h1
      · exact hWnoPost e h1

/-- C6: Sync-skip — in the command trace of a dispatch to a non-local host,
the blend file is copied to the remote host if and only if the remote and
local last-modified timestamp strings compare unequal under exact string
equality; identical strings issue no transfer command. -/
theorem remote_blender_sync_skip (env : TsEnv) (host blend_file output : String)
    (frames : Option (List Int)) :
    Event.copy_to_host blend_file host ∈ remote_blender_events env host blend_file output frames
      ↔ env blend_file host ≠ env blend_file "localhost" := by
  unfold remote_blender_events
  by_cases h : env blend_file host ≠ env blend_file "localhost"
  · rw [if_pos h]
    simp [h]
  · rw [if_neg h]
    simp only [List.nil_append, List.mem_singleton]
    constructor
    · intro he
      exact absurd he (by simp)
    · intro hne
      exact absurd hne h

/-- C4 (amended): Configuration validation — the dispatcher performs no
explicit validation and there is no ConfigurationError in the code; with
zero hosts it fails before spawning anything, but with the
ZeroDivisionError of `slice_list` (from `input_size // size`), and an
empty or invalid frame range (end < start) is not an error at all: with at
least one host the dispatch always succeeds, launching exactly one render
process per host (over an empty frame list if need be). -/
theorem dispatch_config_validation (env : TsEnv) (args : Args) :
    (args.jump ≠ 0 → args.distribute = [] →
        dispatch env args = Except.error "ZeroDivisionError")
    ∧ (args.jump ≠ 0 → args.distribute ≠ [] →
        ∃ tr, dispatch env args = Except.ok tr ∧
          (tr.filter isLaunch).length = args.distribute.length) := by
  have hframes : args.jump ≠ 0 → ∃ frames, dispatchFrames args = Except.ok frames := by
    intro hj
    unfold dispatchFrames pyRange
    rw [if_neg hj]
    exact ⟨_, rfl⟩
  constructor
  · intro hj hd
    rcases hframes hj with ⟨frames, hf⟩
    have hsplit : split_frames_per_host frames args.distribute
        = Except.error "ZeroDivisionError" := by
      rw [hd]
      rfl
    simp only [dispatch, hf, hsplit]
  · intro hj hd
    rcases hframes hj with ⟨frames, hf⟩
    have hK : ¬ args.distribute.length = 0 := by
      cases hh : args.distribute with
      | nil => exact absurd hh hd
      | cons a l => simp
    set slices := sliceListLoop (frames.length / args.distribute.length) frames
        (frames.length % args.distribute.length) args.distribute.length with hslices
    set fph := pydictOfPairs (args.distribute.zip slices) with hfph
    have hsplit : split_frames_per_host frames args.distribute = Except.ok fph := by
      simp only [split_frames_per_host, sliceList, if_neg hK]
    rcases split_frames_per_host_keys frames args.distribute fph hsplit with ⟨_, hkeys⟩
    have hloop := launchLoop_ok env args.blend_file args.output fph args.distribute hkeys
    refine ⟨(args.distribute.map (fun h => hostLaunchEvents env args.blend_file args.output h
        ((pydictGet fph h).getD []))).join
        ++ args.distribute.map Event.wait ++ postEvents args, ?_, ?_⟩
    · simp only [dispatch, hf, hsplit, hloop]
    · rw [List.filter_append, List.filter_append, filter_join, List.map_map]
      have hfun : (List.filter isLaunch ∘ fun h =>
          hostLaunchEvents env args.blend_file args.output h ((pydictGet fph h).getD []))
          = fun h => [if h = "localhost"
              then Event.launch_local (build_blender args.blend_file args.output
                (some ((pydictGet fph h).getD [])))
              else Event.launch_remote h (build_blender args.blend_file args.output
                (some ((pydictGet fph h).getD [])))] := by
        funext h
        simp only [Function.comp_apply]
        rw [hostLaunchEvents_filter_isLaunch]
      rw [hfun, join_map_singleton]
      have hWnil : (args.distribute.map Event.wait).filter isLaunch = [] :=
        List.filter_eq_nil.mpr (fun e he => by
          rw [(waitEvents_no_launch_post _ e he).1]; simp)
      have hPnil : (postEvents args).filter isLaunch = [] :=
        List.filter_eq_nil.mpr (fun e he => by
          rw [(postEvents_no_launch_wait _ e he).1]; simp)
      rw [hWnil, hPnil, List.append_nil, List.append_nil, List.length_map]

/-- Witness for C4 (amended) at a concrete zero-host invocation: dispatch
fails with the ZeroDivisionError of `slice_list`. -/
theorem dispatch_config_validation_witness :
    dispatch (fun _ _ => "ts") ⟨"a.blend", "out", 2, 1, none, [], 1⟩
      = Except.error "ZeroDivisionError" :=
  (dispatch_config_validation (fun _ _ => "ts")
    ⟨"a.blend", "out", 2, 1, none, [], 1⟩).1 (by decide) rfl

/-- Counterexample to C4 as stated: with an invalid frame range (end_frame
3 < start_frame 5, an empty range) the dispatch does not fail with any
configuration error — it succeeds and launches a render process (with a
bare `-f ` flag) on the single host. -/
theorem dispatch_empty_range_cex :
    dispatch (fun _ _ => "ts") ⟨"a.blend", "out", 10, 5, some 3, ["localhost"], 1⟩
      = Except.ok [Event.launch_local "blender -b a.blend -o out/####.png -f ",
                   Event.wait "localhost"] := by
  rfl

/-- Witness for C8 at frames 1..2, hosts ["localhost", "worker1"] and an
environment with equal timestamps everywhere: the trace launches one local
and one remote process, then waits on both, and exactly 2 launch events
occur. -/
theorem dispatch_launch_ordering_witness :
    dispatch (fun _ _ => "ts") ⟨"a.blend", "out", 2, 1, none, ["localhost", "worker1"], 1⟩
      = Except.ok [Event.launch_local "blender -b a.blend -o out/####.png -f 1",
          Event.launch_remote "worker1" "blender -b a.blend -o out/####.png -f 2",
          Event.wait "localhost", Event.wait "worker1",
          Event.copy_results "worker1" "out", Event.cleanup "worker1" "out"]
    ∧ (([Event.launch_local "blender -b a.blend -o out/####.png -f 1",
          Event.launch_remote "worker1" "blender -b a.blend -o out/####.png -f 2",
          Event.wait "localhost", Event.wait "worker1",
          Event.copy_results "worker1" "out",
          Event.cleanup "worker1" "out"] : List Event).filter isLaunch).length = 2 :=
  ⟨rfl,
    (dispatch_launch_ordering (fun _ _ => "ts")
      ⟨"a.blend", "out", 2, 1, none, ["localhost", "worker1"], 1⟩
      [Event.launch_local "blender -b a.blend -o out/####.png -f 1",
        Event.launch_remote "worker1" "blender -b a.blend -o out/####.png -f 2",
        Event.wait "localhost", Event.wait "worker1",
        Event.copy_results "worker1" "out", Event.cleanup "worker1" "out"] rfl).1⟩

/-- Witness for C9 at the same concrete dispatch: the copy of worker1's
results is immediately followed by the remote delete of its output
directory in the issued trace. -/
theorem dispatch_retrieval_cleanup_witness :
    List.IsInfix [Event.copy_results "worker1" "out", Event.cleanup "worker1" "out"]
      [Event.launch_local "blender -b a.blend -o out/####.png -f 1",
        Event.launch_remote "worker1" "blender -b a.blend -o out/####.png -f 2",
        Event.wait "localhost", Event.wait "worker1",
        Event.copy_results "worker1" "out", Event.cleanup "worker1" "out"] :=
  (dispatch_retrieval_cleanup (fun _ _ => "ts")
    ⟨"a.blend", "out", 2, 1, none, ["localhost", "worker1"], 1⟩
    [Event.launch_local "blender -b a.blend -o out/####.png -f 1",
      Event.launch_remote "worker1" "blender -b a.blend -o out/####.png -f 2",
      Event.wait "localhost", Event.wait "worker1",
      Event.copy_results "worker1" "out", Event.cleanup "worker1" "out"] rfl).1
    "worker1" (by decide) (by decide)

end BlenderRenderTool
